import Mathlib

/-!
A shallow embedding of the Part-A network benchmark programs of the
repository (two-copy, scatter-gather and zero-copy send/receive pairs
sharing MT25033_Part_A_Common.h), with proofs about their worker loops,
message model and metrics aggregation.

Transport calls are modelled by an oracle: the list of results the
kernel returns for the calls a worker loop actually issues.  A result
`ok n` stands for a call that returned `n` (with `n = 0` signalling peer
shutdown on the receive side), and `err e` for a call that returned -1
with `errno = e`.  Latencies and elapsed times are modelled as
rationals.
-/

namespace MT25033

/-- The errno values the programs distinguish. -/
inductive Errno
  | eintr
  | epipe
  | econnreset
  | eagain
  | ewouldblock
  | enobufs
  | einval
  | other
  deriving DecidableEq

/-- The result of one socket transfer call. -/
inductive CallResult
  | ok (n : Nat)
  | err (e : Errno)
  deriving DecidableEq

/-- Per-worker client metrics (ClientThreadArgs in MT25033_Part_A_Common.h). -/
structure ClientMetrics where
  bytes_received : Nat
  messages_received : Nat
  total_latency : ℚ
  deriving DecidableEq

/-- Per-worker server metrics (ServerThreadArgs in MT25033_Part_A_Common.h). -/
structure ServerMetrics where
  bytes_sent : Nat
  messages_sent : Nat
  elapsed_time : ℚ
  deriving DecidableEq

/-- The receive loop of the two-copy client (MT25033_Part_A1_Client.c,
client_thread, lines 88-114).  Each oracle entry pairs the result of one
recv call with the latency measured around that call.  An EINTR failure
is retried (continue), any other failure or a zero return ends the loop,
and a positive return accumulates bytes, one message, and the latency. -/
def clientLoopA1 : List (CallResult × ℚ) → ClientMetrics → ClientMetrics
  | [], m => m
  | (CallResult.err e, _) :: rest, m =>
      if e = Errno.eintr then clientLoopA1 rest m else m
  | (CallResult.ok 0, _) :: _, m => m
  | (CallResult.ok (n + 1), lat) :: rest, m =>
      clientLoopA1 rest
        ⟨m.bytes_received + (n + 1), m.messages_received + 1, m.total_latency + lat⟩

/-- The receive loop of the scatter-gather client (MT25033_Part_A2_Client.c,
client_thread, lines 109-135): recvmsg instead of recv, with the same
control flow as the two-copy client loop. -/
def clientLoopA2 : List (CallResult × ℚ) → ClientMetrics → ClientMetrics
  | [], m => m
  | (CallResult.err e, _) :: rest, m =>
      if e = Errno.eintr then clientLoopA2 rest m else m
  | (CallResult.ok 0, _) :: _, m => m
  | (CallResult.ok (n + 1), lat) :: rest, m =>
      clientLoopA2 rest
        ⟨m.bytes_received + (n + 1), m.messages_received + 1, m.total_latency + lat⟩

/-- The receive loop of the zero-copy client (MT25033_Part_A3_Client.c,
client_thread, lines 100-121): recvmsg over a single page-aligned iovec,
with the same control flow as the two-copy client loop. -/
def clientLoopA3 : List (CallResult × ℚ) → ClientMetrics → ClientMetrics
  | [], m => m
  | (CallResult.err e, _) :: rest, m =>
      if e = Errno.eintr then clientLoopA3 rest m else m
  | (CallResult.ok 0, _) :: _, m => m
  | (CallResult.ok (n + 1), lat) :: rest, m =>
      clientLoopA3 rest
        ⟨m.bytes_received + (n + 1), m.messages_received + 1, m.total_latency + lat⟩

/-- The per-worker average latency the client computes after its loop
(MT25033_Part_A1_Client.c lines 120-121): total_latency divided by
messages_received, or 0 when no message was received. -/
def workerAvgLatency (m : ClientMetrics) : ℚ :=
  if 0 < m.messages_received then m.total_latency / (m.messages_received : ℚ) else 0

/-- One worker's update of the shared avg_latency_us accumulator under
the metrics mutex (MT25033_Part_A1_Client.c lines 129-134).  A worker
that exited before reaching the merge (`none`: socket, address, connect
or buffer-allocation failure) leaves the accumulator unchanged. -/
def mergeAvgLatency (g : ℚ) (w : Option ClientMetrics) : ℚ :=
  match w with
  | some m => g + workerAvgLatency m
  | none => g

/-- The process-wide average latency the client reports
(MT25033_Part_A1_Client.c lines 217, 223): the mutex-guarded accumulator
divided by the number of worker threads created. -/
def clientReportedAvgLatency (ws : List (Option ClientMetrics)) : ℚ :=
  (ws.foldl mergeAvgLatency 0) / (ws.length : ℚ)

/-- The per-worker term of the specification formula: a worker
contributes its own mean per-call latency, 0 if it received no
messages (or never produced metrics at all). -/
def workerContribution (w : Option ClientMetrics) : ℚ :=
  match w with
  | some m => workerAvgLatency m
  | none => 0

/-- Modelled from the spec's words for comparison: the unweighted mean
over workers of each worker's own mean per-call latency. -/
def specMeanOfWorkerMeans (ws : List (Option ClientMetrics)) : ℚ :=
  (ws.map workerContribution).sum / (ws.length : ℚ)

/-- The send loop of the two-copy server (MT25033_Part_A1_Server.c,
handle_client, lines 73-92).  Any failed send ends the loop (EPIPE and
ECONNRESET log differently from other errors, but every error breaks);
a non-negative return accumulates bytes and one message.  The second
component is the unconsumed remainder of the oracle, so a nonempty
remainder witnesses an early exit from the loop. -/
def serverLoopA1 : List CallResult → ServerMetrics → ServerMetrics × List CallResult
  | [], m => (m, [])
  | CallResult.err _ :: rest, m => (m, rest)
  | CallResult.ok n :: rest, m =>
      serverLoopA1 rest ⟨m.bytes_sent + n, m.messages_sent + 1, m.elapsed_time⟩

/-- The send loop of the scatter-gather server (MT25033_Part_A2_Server.c,
handle_client, lines 88-108): one sendmsg with flags 0 per iteration; any
failed send ends the loop; a non-negative return accumulates bytes and
one message.  The second component records, per issued sendmsg call,
whether the offload flag was requested (always `false` here). -/
def serverLoopA2 : List CallResult → ServerMetrics → ServerMetrics × List Bool
  | [], m => (m, [])
  | CallResult.err _ :: _, m => (m, [false])
  | CallResult.ok n :: rest, m =>
      let next := serverLoopA2 rest ⟨m.bytes_sent + n, m.messages_sent + 1, m.elapsed_time⟩
      (next.1, false :: next.2)

/-- The send loop of the zero-copy server (MT25033_Part_A3_Server.c,
handle_client, lines 117-152).  With use_zerocopy set, every iteration
first issues sendmsg with MSG_ZEROCOPY; if that call fails with ENOBUFS
or EINVAL the same iteration immediately retries once with flags 0,
consuming the next oracle entry.  The result the loop then inspects is
handled as in the source: EPIPE/ECONNRESET break, EAGAIN/EWOULDBLOCK
continue, any other error breaks, a non-negative return accumulates.
The second component records, per issued sendmsg call, whether the
offload flag was requested. -/
def serverLoopA3 (useZerocopy : Bool) : List CallResult → ServerMetrics → ServerMetrics × List Bool
  | [], m => (m, [])
  | r :: rest, m =>
    if useZerocopy = true then
      match r with
      | CallResult.err e =>
        if e = Errno.enobufs ∨ e = Errno.einval then
          match rest with
          | [] => (m, [true, false])
          | CallResult.ok n :: rest2 =>
            let next := serverLoopA3 useZerocopy rest2
              ⟨m.bytes_sent + n, m.messages_sent + 1, m.elapsed_time⟩
            (next.1, true :: false :: next.2)
          | CallResult.err e2 :: rest2 =>
            if e2 = Errno.epipe ∨ e2 = Errno.econnreset then (m, [true, false])
            else if e2 = Errno.eagain ∨ e2 = Errno.ewouldblock then
              let next := serverLoopA3 useZerocopy rest2 m
              (next.1, true :: false :: next.2)
            else (m, [true, false])
        else
          if e = Errno.epipe ∨ e = Errno.econnreset then (m, [true])
          else if e = Errno.eagain ∨ e = Errno.ewouldblock then
            let next := serverLoopA3 useZerocopy rest m
            (next.1, true :: next.2)
          else (m, [true])
      | CallResult.ok n =>
        let next := serverLoopA3 useZerocopy rest
          ⟨m.bytes_sent + n, m.messages_sent + 1, m.elapsed_time⟩
        (next.1, true :: next.2)
    else
      match r with
      | CallResult.err e =>
        if e = Errno.epipe ∨ e = Errno.econnreset then (m, [false])
        else if e = Errno.eagain ∨ e = Errno.ewouldblock then
          let next := serverLoopA3 useZerocopy rest m
          (next.1, false :: next.2)
        else (m, [false])
      | CallResult.ok n =>
        let next := serverLoopA3 useZerocopy rest
          ⟨m.bytes_sent + n, m.messages_sent + 1, m.elapsed_time⟩
        (next.1, false :: next.2)

/-- What a two-copy-server worker does to its thread_args slot
(MT25033_Part_A1_Server.c, handle_client).  A worker that fails before
entering the ACTIVE send loop (create_message or serialize_message
returning NULL, lines 47-60) exits without ever writing its metrics
fields, so the slot keeps whatever indeterminate contents the malloc of
the thread_args array left in it; a worker that reaches the loop zeroes
its counters first (lines 63-64) and finalizes elapsed_time after. -/
inductive ServerWorkerOutcome
  | preActiveFailure
  | active (oracle : List CallResult) (elapsed : ℚ)

/-- The final contents of one thread_args slot given its initial
(indeterminate) contents and the worker's outcome. -/
def runServerWorker (slot : ServerMetrics) : ServerWorkerOutcome → ServerMetrics
  | ServerWorkerOutcome.preActiveFailure => slot
  | ServerWorkerOutcome.active oracle elapsed =>
      let m := (serverLoopA1 oracle ⟨0, 0, 0⟩).1
      ⟨m.bytes_sent, m.messages_sent, elapsed⟩

/-- The slots after all workers of a run finished: one entry per created
thread, pairing the slot's initial contents with the worker outcome. -/
def serverRun (slots : List (ServerMetrics × ServerWorkerOutcome)) : List ServerMetrics :=
  slots.map (fun p => runServerWorker p.1 p.2)

/-- The final aggregation of the two-copy server main
(MT25033_Part_A1_Server.c lines 241-252): total bytes, total messages,
and the maximum elapsed time over every created thread's slot. -/
def serverTotals (slots : List ServerMetrics) : Nat × Nat × ℚ :=
  ((slots.map ServerMetrics.bytes_sent).sum,
   (slots.map ServerMetrics.messages_sent).sum,
   slots.foldl (fun acc s => if acc < s.elapsed_time then s.elapsed_time else acc) 0)

/-- NUM_FIELDS from MT25033_Part_A_Common.h. -/
def NUM_FIELDS : Nat := 8

/-- The field size a server worker derives from the configured message
size (MT25033_Part_A1_Server.c line 45): truncating integer division. -/
def serverFieldSize (msg_size : Nat) : Nat := msg_size / NUM_FIELDS

/-- The per-call Transfer Unit size the server sends: total_data_size in
serialize_message (MT25033_Part_A_Common.h line 160). -/
def serverTransferUnitSize (msg_size : Nat) : Nat := NUM_FIELDS * serverFieldSize msg_size

/-- The length the two-copy client posts for each recv call
(MT25033_Part_A1_Client.c lines 73, 96): the full configured size. -/
def clientA1RecvLen (msg_size : Nat) : Nat := msg_size

/-- The Message structure of MT25033_Part_A_Common.h: 8 heap-allocated
fields, modelled as byte lists. -/
structure Message where
  field1 : List Nat
  field2 : List Nat
  field3 : List Nat
  field4 : List Nat
  field5 : List Nat
  field6 : List Nat
  field7 : List Nat
  field8 : List Nat
  deriving DecidableEq

/-- The allocations create_message performs: the Message record itself
and its 8 fields. -/
inductive AllocId
  | msgRec
  | field (i : Fin 8)
  deriving DecidableEq

/-- create_message from MT25033_Part_A_Common.h (lines 98-136), with the
outcome of each malloc given by the oracle `ok`.  Returns the result
together with the allocations that succeeded and the allocations the
function freed before returning.  If the record malloc fails, nothing
was allocated.  All 8 field mallocs are attempted; if any fails, every
field is passed to free (a no-op for the NULL ones) and then the record
is freed.  On success each field i is filled with its constant byte
('A' = 65 through 'H' = 72). -/
def create_message (field_size : Nat) (ok : AllocId → Bool) :
    Option Message × List AllocId × List AllocId :=
  if ok AllocId.msgRec = false then (none, [], [])
  else
    let okFields := (List.finRange 8).filter (fun i => ok (AllocId.field i))
    let allocated := AllocId.msgRec :: okFields.map AllocId.field
    if (List.finRange 8).all (fun i => ok (AllocId.field i)) then
      (some
        { field1 := List.replicate field_size 65
          field2 := List.replicate field_size 66
          field3 := List.replicate field_size 67
          field4 := List.replicate field_size 68
          field5 := List.replicate field_size 69
          field6 := List.replicate field_size 70
          field7 := List.replicate field_size 71
          field8 := List.replicate field_size 72 },
       allocated, [])
    else
      (none, allocated, okFields.map AllocId.field ++ [AllocId.msgRec])

/-- serialize_message from MT25033_Part_A_Common.h (lines 159-184): if
the contiguous buffer can be allocated (`allocOk`), memcpy field_size
bytes of each field, in field order, into one buffer; otherwise NULL. -/
def serialize_message (msg : Message) (field_size : Nat) (allocOk : Bool) :
    Option (List Nat) :=
  if allocOk = false then none
  else
    some (msg.field1.take field_size ++ msg.field2.take field_size ++
          msg.field3.take field_size ++ msg.field4.take field_size ++
          msg.field5.take field_size ++ msg.field6.take field_size ++
          msg.field7.take field_size ++ msg.field8.take field_size)

/-- The sum of the byte counts of the successful receive calls in an
oracle segment (a zero return contributes nothing). -/
def recvPosSum : List (CallResult × ℚ) → Nat
  | [] => 0
  | (CallResult.ok n, _) :: rest => n + recvPosSum rest
  | (CallResult.err _, _) :: rest => recvPosSum rest

/-- The number of positive-return receive calls in an oracle segment. -/
def recvPosCount : List (CallResult × ℚ) → Nat
  | [] => 0
  | (CallResult.ok (_ + 1), _) :: rest => 1 + recvPosCount rest
  | (CallResult.ok 0, _) :: rest => recvPosCount rest
  | (CallResult.err _, _) :: rest => recvPosCount rest

/-- The latency accumulated over an oracle segment: only the calls that
returned a positive count contribute their measured latency. -/
def recvLatSum : List (CallResult × ℚ) → ℚ
  | [] => 0
  | (CallResult.ok (_ + 1), lat) :: rest => lat + recvLatSum rest
  | (CallResult.ok 0, _) :: rest => recvLatSum rest
  | (CallResult.err _, _) :: rest => recvLatSum rest

/-- The sum of the return values of the successful send calls in an
oracle segment. -/
def sendOkSum : List CallResult → Nat
  | [] => 0
  | CallResult.ok n :: rest => n + sendOkSum rest
  | CallResult.err _ :: rest => sendOkSum rest

/-- The number of positive-return send calls in an oracle segment. -/
def sendPosCount : List CallResult → Nat
  | [] => 0
  | CallResult.ok (_ + 1) :: rest => 1 + sendPosCount rest
  | CallResult.ok 0 :: rest => sendPosCount rest
  | CallResult.err _ :: rest => sendPosCount rest

/-- The number of successful (non-error) send calls in an oracle
segment, zero-byte returns included. -/
def sendOkCount : List CallResult → Nat
  | [] => 0
  | CallResult.ok _ :: rest => 1 + sendOkCount rest
  | CallResult.err _ :: rest => sendOkCount rest

/-- The first oracle entry the client loop does not skip is a positive
receive: EINTR entries may come first, then a positive result. -/
inductive FirstEffectivePositive : List (CallResult × ℚ) → Prop
  | here (n : Nat) (lat : ℚ) (rest : List (CallResult × ℚ)) :
      FirstEffectivePositive ((CallResult.ok (n + 1), lat) :: rest)
  | skip (lat : ℚ) (rest : List (CallResult × ℚ)) :
      FirstEffectivePositive rest →
      FirstEffectivePositive ((CallResult.err Errno.eintr, lat) :: rest)

/-- Every successful receive in the entry is either empty or a full
1024-byte Transfer Unit. -/
def fullUnitOk (r : CallResult) : Bool :=
  match r with
  | CallResult.ok n => n = 0 || n = 1024
  | CallResult.err _ => true

/-- The well-formed call traces of the offload-enabled zero-copy send
loop: an offloaded call, optionally followed by exactly one
non-offloaded fallback call of the same iteration, then the trace of the
following iterations. -/
inductive ZcTrace : List Bool → Prop
  | nil : ZcTrace []
  | solo (t : List Bool) : ZcTrace t → ZcTrace (true :: t)
  | fb (t : List Bool) : ZcTrace t → ZcTrace (true :: false :: t)

/-- Folding the per-worker merge over any completion order accumulates
exactly the sum of the workers' contributions. -/
theorem foldl_mergeAvgLatency (ws : List (Option ClientMetrics)) :
    ∀ a : ℚ, ws.foldl mergeAvgLatency a = a + (ws.map workerContribution).sum := by
  induction ws with
  | nil => intro a; simp
  | cons w ws ih =>
    intro a
    cases w with
    | none => simp [mergeAvgLatency, workerContribution, ih]
    | some m =>
      simp only [List.foldl_cons, List.map_cons, List.sum_cons, mergeAvgLatency,
        workerContribution, ih]
      ring

/-- The client receive loop consumes a prefix of the oracle in which
every entry is either a retried EINTR or a positive receive, and its
metrics are exactly the accumulation over that prefix. -/
theorem clientLoopA1_split (results : List (CallResult × ℚ)) (m : ClientMetrics) :
    ∃ p s, results = p ++ s ∧
      (∀ e ∈ p, e.1 = CallResult.err Errno.eintr ∨ ∃ n, e.1 = CallResult.ok (n + 1)) ∧
      clientLoopA1 results m =
        ⟨m.bytes_received + recvPosSum p, m.messages_received + recvPosCount p,
          m.total_latency + recvLatSum p⟩ := by
  induction results generalizing m with
  | nil =>
    exact ⟨[], [], rfl, by simp, by simp [clientLoopA1, recvPosSum, recvPosCount, recvLatSum]⟩
  | cons hd tl ih =>
    obtain ⟨r, lat⟩ := hd
    cases r with
    | ok n =>
      cases n with
      | zero =>
        refine ⟨[], (CallResult.ok 0, lat) :: tl, rfl, by simp, ?_⟩
        simp [clientLoopA1, recvPosSum, recvPosCount, recvLatSum]
      | succ k =>
        obtain ⟨p, s, hps, hall, heq⟩ :=
          ih ⟨m.bytes_received + (k + 1), m.messages_received + 1, m.total_latency + lat⟩
        refine ⟨(CallResult.ok (k + 1), lat) :: p, s, by simp [hps], ?_, ?_⟩
        · intro e he
          rcases List.mem_cons.mp he with h | h
          · exact Or.inr ⟨k, by rw [h]⟩
          · exact hall e h
        · rw [show clientLoopA1 ((CallResult.ok (k + 1), lat) :: tl) m
              = clientLoopA1 tl ⟨m.bytes_received + (k + 1), m.messages_received + 1,
                  m.total_latency + lat⟩ from rfl, heq]
          simp only [recvPosSum, recvPosCount, recvLatSum, ClientMetrics.mk.injEq]
          refine ⟨by omega, by omega, by ring⟩
    | err e =>
      by_cases he : e = Errno.eintr
      · subst he
        obtain ⟨p, s, hps, hall, heq⟩ := ih m
        refine ⟨(CallResult.err Errno.eintr, lat) :: p, s, by simp [hps], ?_, ?_⟩
        · intro x hx
          rcases List.mem_cons.mp hx with h | h
          · exact Or.inl (by rw [h])
          · exact hall x h
        · rw [show clientLoopA1 ((CallResult.err Errno.eintr, lat) :: tl) m
              = clientLoopA1 tl m from by simp [clientLoopA1], heq]
          simp [recvPosSum, recvPosCount, recvLatSum]
      · refine ⟨[], (CallResult.err e, lat) :: tl, rfl, by simp, ?_⟩
        simp [clientLoopA1, he, recvPosSum, recvPosCount, recvLatSum]

/-- The scatter-gather client loop computes the same function as the
two-copy client loop. -/
theorem clientLoopA2_eq (results : List (CallResult × ℚ)) (m : ClientMetrics) :
    clientLoopA2 results m = clientLoopA1 results m := by
  induction results generalizing m with
  | nil => rfl
  | cons hd tl ih =>
    obtain ⟨r, lat⟩ := hd
    cases r with
    | ok n => cases n with
      | zero => rfl
      | succ k => simp [clientLoopA1, clientLoopA2, ih]
    | err e =>
      by_cases he : e = Errno.eintr
      · simp [clientLoopA1, clientLoopA2, he, ih]
      · simp [clientLoopA1, clientLoopA2, he]

/-- The zero-copy client loop computes the same function as the two-copy
client loop. -/
theorem clientLoopA3_eq (results : List (CallResult × ℚ)) (m : ClientMetrics) :
    clientLoopA3 results m = clientLoopA1 results m := by
  induction results generalizing m with
  | nil => rfl
  | cons hd tl ih =>
    obtain ⟨r, lat⟩ := hd
    cases r with
    | ok n => cases n with
      | zero => rfl
      | succ k => simp [clientLoopA1, clientLoopA3, ih]
    | err e =>
      by_cases he : e = Errno.eintr
      · simp [clientLoopA1, clientLoopA3, he, ih]
      · simp [clientLoopA1, clientLoopA3, he]

/-- An interrupted-call failure ends the zero-copy server send loop
after the single (offloaded or not) call that reported it. -/
theorem serverLoopA3_eintr (z : Bool) (rest : List CallResult) (m : ServerMetrics) :
    serverLoopA3 z (CallResult.err Errno.eintr :: rest) m = (m, [z]) := by
  cases z <;>
    (cases rest with
     | nil => rfl
     | cons r2 rest2 =>
       cases r2 with
       | ok n => rfl
       | err e2 => cases e2 <;> rfl)

/-- With offload disabled, any send error other than EAGAIN/EWOULDBLOCK
ends the zero-copy server send loop after one non-offloaded call. -/
theorem serverLoopA3_false_err (e : Errno) (h1 : e ≠ Errno.eagain)
    (h2 : e ≠ Errno.ewouldblock) (rest : List CallResult) (m : ServerMetrics) :
    serverLoopA3 false (CallResult.err e :: rest) m = (m, [false]) := by
  cases e <;> first
    | exact absurd rfl h1
    | exact absurd rfl h2
    | (cases rest with
       | nil => rfl
       | cons r2 rest2 =>
         cases r2 with
         | ok n => rfl
         | err e2 => cases e2 <;> rfl)

/-- With offload enabled, an error on the offloaded call other than the
fallback-triggering ENOBUFS/EINVAL and the skipped EAGAIN/EWOULDBLOCK
ends the zero-copy server send loop without any fallback call. -/
theorem serverLoopA3_true_err_break (e : Errno) (h1 : e ≠ Errno.enobufs)
    (h2 : e ≠ Errno.einval) (h3 : e ≠ Errno.eagain) (h4 : e ≠ Errno.ewouldblock)
    (rest : List CallResult) (m : ServerMetrics) :
    serverLoopA3 true (CallResult.err e :: rest) m = (m, [true]) := by
  cases e <;> first
    | exact absurd rfl h1
    | exact absurd rfl h2
    | exact absurd rfl h3
    | exact absurd rfl h4
    | (cases rest with
       | nil => rfl
       | cons r2 rest2 =>
         cases r2 with
         | ok n => rfl
         | err e2 => cases e2 <;> rfl)

/-- With offload enabled, an EAGAIN/EWOULDBLOCK result on the offloaded
call makes the loop skip the iteration and continue. -/
theorem serverLoopA3_true_err_continue (e : Errno)
    (he : e = Errno.eagain ∨ e = Errno.ewouldblock)
    (rest : List CallResult) (m : ServerMetrics) :
    serverLoopA3 true (CallResult.err e :: rest) m
      = ((serverLoopA3 true rest m).1, true :: (serverLoopA3 true rest m).2) := by
  rcases he with rfl | rfl <;>
    (cases rest with
     | nil => rfl
     | cons r2 rest2 =>
       cases r2 with
       | ok n => rfl
       | err e2 => cases e2 <;> rfl)

/-- With offload disabled, an EAGAIN/EWOULDBLOCK result likewise makes
the zero-copy server loop skip the iteration and continue. -/
theorem serverLoopA3_false_err_continue (e : Errno)
    (he : e = Errno.eagain ∨ e = Errno.ewouldblock)
    (rest : List CallResult) (m : ServerMetrics) :
    serverLoopA3 false (CallResult.err e :: rest) m
      = ((serverLoopA3 false rest m).1, false :: (serverLoopA3 false rest m).2) := by
  rcases he with rfl | rfl <;>
    (cases rest with
     | nil => rfl
     | cons r2 rest2 =>
       cases r2 with
       | ok n => rfl
       | err e2 => cases e2 <;> rfl)

/-- The two-copy server send loop consumes a prefix of successful sends
and accumulates exactly over that prefix, counting one message per
successful call (of any size). -/
theorem serverLoopA1_split (oracle : List CallResult) (m : ServerMetrics) :
    ∃ p s, oracle = p ++ s ∧
      (∀ r ∈ p, ∃ n, r = CallResult.ok n) ∧
      (serverLoopA1 oracle m).1 =
        ⟨m.bytes_sent + sendOkSum p, m.messages_sent + p.length, m.elapsed_time⟩ := by
  induction oracle generalizing m with
  | nil => exact ⟨[], [], rfl, by simp, by simp [serverLoopA1, sendOkSum]⟩
  | cons r tl ih =>
    cases r with
    | ok n =>
      obtain ⟨p, s, hps, hall, heq⟩ :=
        ih ⟨m.bytes_sent + n, m.messages_sent + 1, m.elapsed_time⟩
      refine ⟨CallResult.ok n :: p, s, by simp [hps], ?_, ?_⟩
      · intro x hx
        rcases List.mem_cons.mp hx with h | h
        · exact ⟨n, h⟩
        · exact hall x h
      · rw [show (serverLoopA1 (CallResult.ok n :: tl) m).1
            = (serverLoopA1 tl ⟨m.bytes_sent + n, m.messages_sent + 1, m.elapsed_time⟩).1
            from rfl, heq]
        simp only [sendOkSum, List.length_cons, ServerMetrics.mk.injEq]
        refine ⟨by omega, by omega, trivial⟩
    | err e =>
      refine ⟨[], CallResult.err e :: tl, rfl, by simp, ?_⟩
      simp [serverLoopA1, sendOkSum]

/-- The scatter-gather server send loop consumes a prefix of successful
sends and accumulates exactly over that prefix, counting one message per
successful call (of any size). -/
theorem serverLoopA2_split (oracle : List CallResult) (m : ServerMetrics) :
    ∃ p s, oracle = p ++ s ∧
      (∀ r ∈ p, ∃ n, r = CallResult.ok n) ∧
      (serverLoopA2 oracle m).1 =
        ⟨m.bytes_sent + sendOkSum p, m.messages_sent + p.length, m.elapsed_time⟩ := by
  induction oracle generalizing m with
  | nil => exact ⟨[], [], rfl, by simp, by simp [serverLoopA2, sendOkSum]⟩
  | cons r tl ih =>
    cases r with
    | ok n =>
      obtain ⟨p, s, hps, hall, heq⟩ :=
        ih ⟨m.bytes_sent + n, m.messages_sent + 1, m.elapsed_time⟩
      refine ⟨CallResult.ok n :: p, s, by simp [hps], ?_, ?_⟩
      · intro x hx
        rcases List.mem_cons.mp hx with h | h
        · exact ⟨n, h⟩
        · exact hall x h
      · have hstep : (serverLoopA2 (CallResult.ok n :: tl) m).1
            = (serverLoopA2 tl ⟨m.bytes_sent + n, m.messages_sent + 1, m.elapsed_time⟩).1 := rfl
        rw [hstep, heq]
        simp only [sendOkSum, List.length_cons, ServerMetrics.mk.injEq]
        exact ⟨by omega, by omega, by trivial⟩
    | err e =>
      refine ⟨[], CallResult.err e :: tl, rfl, by simp, ?_⟩
      simp [serverLoopA2, sendOkSum]

/-- When every successful receive in a segment is empty or a full
1024-byte unit, the accumulated byte count is a multiple of 1024. -/
theorem recvPosSum_dvd (p : List (CallResult × ℚ))
    (h : ∀ e ∈ p, fullUnitOk e.1 = true) : 1024 ∣ recvPosSum p := by
  induction p with
  | nil => simp [recvPosSum]
  | cons hd tl ih =>
    obtain ⟨r, lat⟩ := hd
    have hh := h (r, lat) (List.mem_cons_self _ _)
    have ht := ih (fun e he => h e (List.mem_cons_of_mem _ he))
    cases r with
    | ok n =>
      have : n = 0 ∨ n = 1024 := by
        simpa [fullUnitOk, Bool.or_eq_true, decide_eq_true_eq] using hh
      rcases this with rfl | rfl
      · simpa [recvPosSum] using ht
      · exact (show recvPosSum ((CallResult.ok 1024, lat) :: tl) = 1024 + recvPosSum tl
          from rfl) ▸ Nat.dvd_add ⟨1, rfl⟩ ht
    | err e => simpa [recvPosSum] using ht

/-- A successfully built Message has exactly the pattern-filled fields
written by create_message. -/
theorem create_message_some (s : Nat) (ok : AllocId → Bool) (m : Message)
    (h : (create_message s ok).1 = some m) :
    m = ⟨List.replicate s 65, List.replicate s 66, List.replicate s 67,
         List.replicate s 68, List.replicate s 69, List.replicate s 70,
         List.replicate s 71, List.replicate s 72⟩ := by
  by_cases hrec : ok AllocId.msgRec = false
  · simp [create_message, hrec] at h
  · by_cases hall : (List.finRange 8).all (fun i => ok (AllocId.field i)) = true
    · simp [create_message, hrec, hall] at h
      exact h.symm
    · simp [create_message, hrec, hall] at h

/-- C1: the process-wide average latency the client reports equals the
unweighted mean of the per-worker mean per-call latencies: each worker
contributes total_latency / messages_received (0 when it received no
messages, or when it never produced metrics), the contributions are
summed in completion order under the metrics mutex, and the sum is
divided by the number of worker threads created. -/
theorem claim_C1 (ws : List (Option ClientMetrics)) (_h : ws ≠ []) :
    clientReportedAvgLatency ws = specMeanOfWorkerMeans ws := by
  unfold clientReportedAvgLatency specMeanOfWorkerMeans
  rw [foldl_mergeAvgLatency]
  simp

/-- Witness for C1 at a concrete two-worker run: one worker with two
calls totalling 10 time units, one worker that failed early. -/
theorem claim_C1_witness :
    clientReportedAvgLatency [some ⟨2048, 2, 10⟩, none]
      = specMeanOfWorkerMeans [some ⟨2048, 2, 10⟩, none] :=
  claim_C1 [some ⟨2048, 2, 10⟩, none] (by decide)

/-- C4: a Message built with field size s serializes to exactly the
concatenation of its 8 fields in order, s bytes of each constant 65..72
(ASCII A..H), of total length 8*s, and serialization fails exactly when
the contiguous buffer cannot be allocated. -/
theorem claim_C4 (s : Nat) (ok : AllocId → Bool) (m : Message)
    (h : (create_message s ok).1 = some m) :
    serialize_message m s true =
      some (List.replicate s 65 ++ List.replicate s 66 ++ List.replicate s 67 ++
            List.replicate s 68 ++ List.replicate s 69 ++ List.replicate s 70 ++
            List.replicate s 71 ++ List.replicate s 72) ∧
    (∀ out, serialize_message m s true = some out → out.length = 8 * s) ∧
    (∀ b : Bool, serialize_message m s b = none ↔ b = false) := by
  have hm := create_message_some s ok m h
  subst hm
  refine ⟨?_, ?_, ?_⟩
  · simp [serialize_message, List.take_replicate]
  · intro out hout
    simp [serialize_message, List.take_replicate] at hout
    rw [← hout]
    simp only [List.length_append, List.length_replicate]
    omega
  · intro b
    cases b <;> simp [serialize_message]

/-- Witness for C4 at field size 1 with every allocation succeeding. -/
theorem claim_C4_witness :
    (serialize_message ⟨[65], [66], [67], [68], [69], [70], [71], [72]⟩ 1 true).isSome
      = true := by
  have h := claim_C4 1 (fun _ => true)
    ⟨[65], [66], [67], [68], [69], [70], [71], [72]⟩ (by decide)
  rw [h.1]
  rfl

/-- C5 is a code bug: the claim says workers that fail before the ACTIVE
loop contribute no metrics, but the two-copy server main sums the
thread_args slot of every created thread, and a worker that fails in
create_message or serialize_message exits without ever writing its slot,
whose contents after malloc are indeterminate.  At this failing input
(one pre-ACTIVE-failed worker whose slot happens to hold bytes=7,
messages=3, elapsed=99, and one ACTIVE worker that sent one 1024-byte
unit in 1 second) the reported totals are 1031 bytes, 4 messages and 99
seconds, while the sums over the workers that reached the ACTIVE loop
are 1024 bytes, 1 message and 1 second. -/
theorem claim_C5 :
    serverTotals (serverRun
      [(⟨7, 3, 99⟩, ServerWorkerOutcome.preActiveFailure),
       (⟨0, 0, 0⟩, ServerWorkerOutcome.active [CallResult.ok 1024] 1)]) = (1031, 4, 99) ∧
    serverTotals (serverRun
      [(⟨0, 0, 0⟩, ServerWorkerOutcome.active [CallResult.ok 1024] 1)]) = (1024, 1, 1) ∧
    ((1031, 4, (99 : ℚ)) : Nat × Nat × ℚ) ≠ (1024, 1, (1 : ℚ)) := by
  decide

/-- C8: create_message is all-or-nothing: it returns a Message exactly
when all 8 field allocations succeed, with field i filled entirely with
its distinct constant byte, and on failure it has freed exactly the
allocations that had succeeded (fields and the Message record). -/
theorem claim_C8 (s : Nat) (ok : AllocId → Bool) :
    (∀ m, (create_message s ok).1 = some m →
      (List.finRange 8).all (fun i => ok (AllocId.field i)) = true ∧
      m.field1 = List.replicate s 65 ∧ m.field2 = List.replicate s 66 ∧
      m.field3 = List.replicate s 67 ∧ m.field4 = List.replicate s 68 ∧
      m.field5 = List.replicate s 69 ∧ m.field6 = List.replicate s 70 ∧
      m.field7 = List.replicate s 71 ∧ m.field8 = List.replicate s 72) ∧
    ((create_message s ok).1 = none →
      ∀ a : AllocId, a ∈ (create_message s ok).2.2 ↔ a ∈ (create_message s ok).2.1) := by
  by_cases hrec : ok AllocId.msgRec = false
  · refine ⟨fun m hm => ?_, fun _ a => ?_⟩
    · simp [create_message, hrec] at hm
    · simp [create_message, hrec]
  · by_cases hall : (List.finRange 8).all (fun i => ok (AllocId.field i)) = true
    · refine ⟨fun m hm => ?_, fun hn => ?_⟩
      · simp [create_message, hrec, hall] at hm
        subst hm
        exact ⟨hall, rfl, rfl, rfl, rfl, rfl, rfl, rfl, rfl⟩
      · simp [create_message, hrec, hall] at hn
    · refine ⟨fun m hm => ?_, fun _ a => ?_⟩
      · simp [create_message, hrec, hall] at hm
      · simp only [create_message, hrec, hall]
        simp [List.mem_append, List.mem_cons, or_comm]

/-- Witness for C8 at field size 2 with the allocation of field 3
failing: the Message record, which was allocated before the fields, is
among the freed allocations. -/
theorem claim_C8_witness :
    AllocId.msgRec ∈ (create_message 2 (fun i => i != AllocId.field 3)).2.2 := by
  have h := (claim_C8 2 (fun i => i != AllocId.field 3)).2 (by decide)
  exact (h AllocId.msgRec).mpr (by decide)

/-- C9: the server-side per-call Transfer Unit is 8*(m/8) bytes by
truncating division; whenever the configured size m is not a multiple of
8 this is strictly smaller than m, while the two-copy client posts
receive calls for the full configured size m, so the two sides disagree
on the per-call unit size. -/
theorem claim_C9 (msg_size : Nat) :
    serverTransferUnitSize msg_size = 8 * (msg_size / 8) ∧
    (msg_size % 8 ≠ 0 →
      serverTransferUnitSize msg_size < msg_size ∧
      serverTransferUnitSize msg_size ≠ clientA1RecvLen msg_size) := by
  refine ⟨rfl, fun h => ?_⟩
  have := Nat.div_add_mod msg_size 8
  unfold serverTransferUnitSize serverFieldSize NUM_FIELDS clientA1RecvLen
  omega

/-- Witness for C9 at the configured size 1023: the server sends
1016-byte units while the client posts 1023-byte receives. -/
theorem claim_C9_witness :
    serverTransferUnitSize 1023 < 1023 ∧
    serverTransferUnitSize 1023 ≠ clientA1RecvLen 1023 :=
  (claim_C9 1023).2 (by decide)

/-- When the first result the loop does not skip is positive and every
positive result is a full 1024-byte unit, the loop records at least one
message and keeps the byte count a multiple of 1024. -/
theorem clientLoopA1_fullUnits (results : List (CallResult × ℚ))
    (hfirst : FirstEffectivePositive results) :
    ∀ m : ClientMetrics, (∀ e ∈ results, fullUnitOk e.1 = true) →
      m.messages_received + 1 ≤ (clientLoopA1 results m).messages_received ∧
      (1024 ∣ m.bytes_received → 1024 ∣ (clientLoopA1 results m).bytes_received) := by
  induction hfirst with
  | here n lat rest =>
    intro m hall
    obtain ⟨p, s, hps, hp, heq⟩ := clientLoopA1_split rest
      ⟨m.bytes_received + (n + 1), m.messages_received + 1, m.total_latency + lat⟩
    have hloop : clientLoopA1 ((CallResult.ok (n + 1), lat) :: rest) m
        = clientLoopA1 rest ⟨m.bytes_received + (n + 1), m.messages_received + 1,
            m.total_latency + lat⟩ := rfl
    have hfull : n + 1 = 1024 := by
      have := hall (CallResult.ok (n + 1), lat) (List.mem_cons_self _ _)
      simp only [fullUnitOk, Bool.or_eq_true, decide_eq_true_eq] at this
      omega
    have hdvd : 1024 ∣ recvPosSum p := by
      refine recvPosSum_dvd p (fun e he => ?_)
      exact hall e (List.mem_cons_of_mem _ (hps ▸ List.mem_append_left s he))
    constructor
    · rw [hloop, heq]
      show m.messages_received + 1 ≤ m.messages_received + 1 + recvPosCount p
      omega
    · intro hd
      rw [hloop, heq]
      show 1024 ∣ m.bytes_received + (n + 1) + recvPosSum p
      omega
  | skip lat rest _ ih =>
    intro m hall
    have hloop : clientLoopA1 ((CallResult.err Errno.eintr, lat) :: rest) m
        = clientLoopA1 rest m := by simp [clientLoopA1]
    rw [hloop]
    exact ih m (fun e he => hall e (List.mem_cons_of_mem _ he))

/-- C2 as amended: for the copy-based client with Transfer Unit 1024, if
every positive receive result is a full 1024-byte unit and the first
result the loop does not retry past is positive, then messages_received
is positive and bytes_received is an exact multiple of 1024.  (As
originally stated — over every result sequence the transport may
produce — the claim fails, because a short read leaves bytes_received a
non-multiple of 1024; see the counterexample.) -/
theorem claim_C2 (results : List (CallResult × ℚ))
    (hall : ∀ e ∈ results, fullUnitOk e.1 = true)
    (hfirst : FirstEffectivePositive results) :
    0 < (clientLoopA1 results ⟨0, 0, 0⟩).messages_received ∧
    1024 ∣ (clientLoopA1 results ⟨0, 0, 0⟩).bytes_received := by
  have h := clientLoopA1_fullUnits results hfirst ⟨0, 0, 0⟩ hall
  refine ⟨?_, h.2 (dvd_zero _)⟩
  have h1 := h.1
  omega

/-- Witness for C2 at a one-call run returning a full unit. -/
theorem claim_C2_witness :
    0 < (clientLoopA1 [(CallResult.ok 1024, 0)] ⟨0, 0, 0⟩).messages_received ∧
    1024 ∣ (clientLoopA1 [(CallResult.ok 1024, 0)] ⟨0, 0, 0⟩).bytes_received :=
  claim_C2 [(CallResult.ok 1024, 0)] (by decide) (FirstEffectivePositive.here 1023 0 [])

/-- Counterexample to C2 as stated: a single receive call returning 512
bytes (a short read, which a stream transport may produce) yields
messages_received = 1 > 0 but bytes_received = 512, not a multiple of
1024. -/
theorem claim_C2_counterexample :
    0 < (clientLoopA1 [(CallResult.ok 512, 0)] ⟨0, 0, 0⟩).messages_received ∧
    ¬ 1024 ∣ (clientLoopA1 [(CallResult.ok 512, 0)] ⟨0, 0, 0⟩).bytes_received := by
  decide

/-- C3 as amended: an EINTR failure is retried in place, without
contributing to any metric, on the receive path of all three client
strategies; but on the transmit path of all three servers an EINTR send
failure is not retried: it ends the worker loop (leaving the metrics
accumulated so far). -/
theorem claim_C3 :
    (∀ (lat : ℚ) (rest : List (CallResult × ℚ)) (m : ClientMetrics),
        clientLoopA1 ((CallResult.err Errno.eintr, lat) :: rest) m = clientLoopA1 rest m)
  ∧ (∀ (lat : ℚ) (rest : List (CallResult × ℚ)) (m : ClientMetrics),
        clientLoopA2 ((CallResult.err Errno.eintr, lat) :: rest) m = clientLoopA2 rest m)
  ∧ (∀ (lat : ℚ) (rest : List (CallResult × ℚ)) (m : ClientMetrics),
        clientLoopA3 ((CallResult.err Errno.eintr, lat) :: rest) m = clientLoopA3 rest m)
  ∧ (∀ (rest : List CallResult) (m : ServerMetrics),
        serverLoopA1 (CallResult.err Errno.eintr :: rest) m = (m, rest))
  ∧ (∀ (rest : List CallResult) (m : ServerMetrics),
        serverLoopA2 (CallResult.err Errno.eintr :: rest) m = (m, [false]))
  ∧ (∀ (z : Bool) (rest : List CallResult) (m : ServerMetrics),
        serverLoopA3 z (CallResult.err Errno.eintr :: rest) m = (m, [z])) := by
  exact ⟨fun lat rest m => rfl, fun lat rest m => rfl, fun lat rest m => rfl,
    fun rest m => rfl, fun rest m => rfl, fun z rest m => serverLoopA3_eintr z rest m⟩

/-- Witness for C3 as amended, at a concrete run: an EINTR send failure
ends the two-copy server loop with the following result unconsumed. -/
theorem claim_C3_witness :
    serverLoopA1 (CallResult.err Errno.eintr :: [CallResult.ok 3]) ⟨0, 0, 0⟩
      = (⟨0, 0, 0⟩, [CallResult.ok 3]) :=
  claim_C3.2.2.2.1 [CallResult.ok 3] ⟨0, 0, 0⟩

/-- Counterexample to C3 as stated: on the two-copy server transmit
path, a send failing with EINTR ends the worker loop — the following
(successful) send is never issued and no message is recorded — instead
of being retried in place. -/
theorem claim_C3_counterexample :
    serverLoopA1 [CallResult.err Errno.eintr, CallResult.ok 5] ⟨0, 0, 0⟩
      = (⟨0, 0, 0⟩, [CallResult.ok 5]) ∧
    (serverLoopA1 [CallResult.err Errno.eintr, CallResult.ok 5] ⟨0, 0, 0⟩).1.messages_sent
      = 0 := by
  decide

/-- C7 as amended: when enabling the socket offload option fails, the
offloaded strategy issues the same non-offloaded vectorized sends and
accumulates the same per-worker byte and message counts as the
scatter/gather strategy, for every transport-result sequence that
contains no EAGAIN/EWOULDBLOCK result.  (On an EAGAIN/EWOULDBLOCK result
the two strategies diverge — see the counterexample — so the claim as
stated, over every result sequence, fails.) -/
theorem claim_C7 (oracle : List CallResult) (m : ServerMetrics)
    (h : ∀ r ∈ oracle,
        r ≠ CallResult.err Errno.eagain ∧ r ≠ CallResult.err Errno.ewouldblock) :
    serverLoopA3 false oracle m = serverLoopA2 oracle m := by
  induction oracle generalizing m with
  | nil => rfl
  | cons r tl ih =>
    cases r with
    | ok n =>
      have ihm := ih ⟨m.bytes_sent + n, m.messages_sent + 1, m.elapsed_time⟩
        (fun x hx => h x (List.mem_cons_of_mem _ hx))
      show ((serverLoopA3 false tl ⟨m.bytes_sent + n, m.messages_sent + 1, m.elapsed_time⟩).1,
            false :: (serverLoopA3 false tl
              ⟨m.bytes_sent + n, m.messages_sent + 1, m.elapsed_time⟩).2)
          = ((serverLoopA2 tl ⟨m.bytes_sent + n, m.messages_sent + 1, m.elapsed_time⟩).1,
             false :: (serverLoopA2 tl
              ⟨m.bytes_sent + n, m.messages_sent + 1, m.elapsed_time⟩).2)
      rw [ihm]
    | err e =>
      have he := h (CallResult.err e) (List.mem_cons_self _ _)
      have h1 : e ≠ Errno.eagain := fun hx => he.1 (by rw [hx])
      have h2 : e ≠ Errno.ewouldblock := fun hx => he.2 (by rw [hx])
      rw [serverLoopA3_false_err e h1 h2]
      rfl

/-- Witness for C7 on a run of one successful send followed by a peer
reset, with offload unavailable. -/
theorem claim_C7_witness :
    serverLoopA3 false [CallResult.ok 8, CallResult.err Errno.econnreset] ⟨0, 0, 0⟩
      = serverLoopA2 [CallResult.ok 8, CallResult.err Errno.econnreset] ⟨0, 0, 0⟩ :=
  claim_C7 [CallResult.ok 8, CallResult.err Errno.econnreset] ⟨0, 0, 0⟩ (by decide)

/-- Counterexample to C7 as stated: on the result sequence EAGAIN then a
successful 8-byte send, the scatter/gather server worker ends its loop
with 0 messages, while the offloaded worker in fallback mode skips the
EAGAIN iteration and records 1 message, so the two strategies are not
byte-identical for every result sequence. -/
theorem claim_C7_counterexample :
    (serverLoopA3 false [CallResult.err Errno.eagain, CallResult.ok 8] ⟨0, 0, 0⟩).1.messages_sent
      = 1 ∧
    (serverLoopA2 [CallResult.err Errno.eagain, CallResult.ok 8] ⟨0, 0, 0⟩).1.messages_sent
      = 0 ∧
    serverLoopA3 false [CallResult.err Errno.eagain, CallResult.ok 8] ⟨0, 0, 0⟩
      ≠ serverLoopA2 [CallResult.err Errno.eagain, CallResult.ok 8] ⟨0, 0, 0⟩ := by
  decide

/-- Every call trace of the offload-enabled zero-copy send loop is a
sequence of iterations each beginning with an offloaded call, with at
most one immediate non-offloaded fallback call per iteration. -/
theorem zcTrace_aux :
    ∀ (k : Nat) (oracle : List CallResult) (m : ServerMetrics),
      oracle.length ≤ k → ZcTrace (serverLoopA3 true oracle m).2 := by
  intro k
  induction k with
  | zero =>
    intro oracle m h
    have ho : oracle = [] := List.eq_nil_of_length_eq_zero (Nat.le_zero.mp h)
    subst ho
    exact ZcTrace.nil
  | succ k ih =>
    intro oracle m h
    cases oracle with
    | nil => exact ZcTrace.nil
    | cons r rest =>
      have hr : rest.length ≤ k := by
        simp only [List.length_cons] at h
        omega
      cases r with
      | ok n => exact ZcTrace.solo _ (ih rest _ hr)
      | err e =>
        cases e with
        | eintr =>
          rw [serverLoopA3_eintr]
          exact ZcTrace.solo [] ZcTrace.nil
        | epipe =>
          rw [serverLoopA3_true_err_break Errno.epipe (by decide) (by decide)
            (by decide) (by decide)]
          exact ZcTrace.solo [] ZcTrace.nil
        | econnreset =>
          rw [serverLoopA3_true_err_break Errno.econnreset (by decide) (by decide)
            (by decide) (by decide)]
          exact ZcTrace.solo [] ZcTrace.nil
        | eagain =>
          rw [serverLoopA3_true_err_continue Errno.eagain (Or.inl rfl)]
          exact ZcTrace.solo _ (ih rest m hr)
        | ewouldblock =>
          rw [serverLoopA3_true_err_continue Errno.ewouldblock (Or.inr rfl)]
          exact ZcTrace.solo _ (ih rest m hr)
        | other =>
          rw [serverLoopA3_true_err_break Errno.other (by decide) (by decide)
            (by decide) (by decide)]
          exact ZcTrace.solo [] ZcTrace.nil
        | enobufs =>
          cases rest with
          | nil => exact ZcTrace.fb [] ZcTrace.nil
          | cons r2 rest2 =>
            have hr2 : rest2.length ≤ k := by
              simp only [List.length_cons] at h
              omega
            cases r2 with
            | ok n => exact ZcTrace.fb _ (ih rest2 _ hr2)
            | err e2 =>
              cases e2 with
              | eintr => exact ZcTrace.fb [] ZcTrace.nil
              | epipe => exact ZcTrace.fb [] ZcTrace.nil
              | econnreset => exact ZcTrace.fb [] ZcTrace.nil
              | eagain => exact ZcTrace.fb _ (ih rest2 m hr2)
              | ewouldblock => exact ZcTrace.fb _ (ih rest2 m hr2)
              | enobufs => exact ZcTrace.fb [] ZcTrace.nil
              | einval => exact ZcTrace.fb [] ZcTrace.nil
              | other => exact ZcTrace.fb [] ZcTrace.nil
        | einval =>
          cases rest with
          | nil => exact ZcTrace.fb [] ZcTrace.nil
          | cons r2 rest2 =>
            have hr2 : rest2.length ≤ k := by
              simp only [List.length_cons] at h
              omega
            cases r2 with
            | ok n => exact ZcTrace.fb _ (ih rest2 _ hr2)
            | err e2 =>
              cases e2 with
              | eintr => exact ZcTrace.fb [] ZcTrace.nil
              | epipe => exact ZcTrace.fb [] ZcTrace.nil
              | econnreset => exact ZcTrace.fb [] ZcTrace.nil
              | eagain => exact ZcTrace.fb _ (ih rest2 m hr2)
              | ewouldblock => exact ZcTrace.fb _ (ih rest2 m hr2)
              | enobufs => exact ZcTrace.fb [] ZcTrace.nil
              | einval => exact ZcTrace.fb [] ZcTrace.nil
              | other => exact ZcTrace.fb [] ZcTrace.nil

/-- The zero-copy server send loop, in either offload mode, consumes a
prefix of the oracle in which every entry is a successful send, a
skipped EAGAIN/EWOULDBLOCK error, or (offload mode only) a
fallback-triggering ENOBUFS/EINVAL error; its byte counter accumulates
the sum of the successful calls' return values over that prefix and its
message counter counts the successful calls. -/
theorem serverLoopA3_split :
    ∀ (k : Nat) (z : Bool) (oracle : List CallResult) (m : ServerMetrics),
      oracle.length ≤ k →
      ∃ p s, oracle = p ++ s ∧
        (∀ r ∈ p, (∃ n, r = CallResult.ok n) ∨
          r = CallResult.err Errno.eagain ∨ r = CallResult.err Errno.ewouldblock ∨
          (z = true ∧ (r = CallResult.err Errno.enobufs ∨ r = CallResult.err Errno.einval))) ∧
        (serverLoopA3 z oracle m).1 =
          ⟨m.bytes_sent + sendOkSum p, m.messages_sent + sendOkCount p, m.elapsed_time⟩ := by
  intro k
  induction k with
  | zero =>
    intro z oracle m h
    have ho : oracle = [] := List.eq_nil_of_length_eq_zero (Nat.le_zero.mp h)
    subst ho
    exact ⟨[], [], rfl, by simp, by cases z <;> simp [serverLoopA3, sendOkSum, sendOkCount]⟩
  | succ k ih =>
    intro z oracle m h
    cases oracle with
    | nil =>
      exact ⟨[], [], rfl, by simp, by cases z <;> simp [serverLoopA3, sendOkSum, sendOkCount]⟩
    | cons r rest =>
      have hr : rest.length ≤ k := by
        simp only [List.length_cons] at h
        omega
      cases r with
      | ok n =>
        obtain ⟨p, s, hps, hall, heq⟩ :=
          ih z rest ⟨m.bytes_sent + n, m.messages_sent + 1, m.elapsed_time⟩ hr
        refine ⟨CallResult.ok n :: p, s, by simp [hps], ?_, ?_⟩
        · intro x hx
          rcases List.mem_cons.mp hx with hx | hx
          · exact Or.inl ⟨n, hx⟩
          · exact hall x hx
        · have hstep : (serverLoopA3 z (CallResult.ok n :: rest) m).1
              = (serverLoopA3 z rest
                  ⟨m.bytes_sent + n, m.messages_sent + 1, m.elapsed_time⟩).1 := by
            cases z <;> rfl
          rw [hstep, heq]
          simp only [sendOkSum, sendOkCount, ServerMetrics.mk.injEq]
          exact ⟨by omega, by omega, by trivial⟩
      | err e =>
        cases e with
        | eintr =>
          refine ⟨[], CallResult.err Errno.eintr :: rest, rfl, by simp, ?_⟩
          rw [serverLoopA3_eintr]
          simp [sendOkSum, sendOkCount]
        | epipe =>
          refine ⟨[], CallResult.err Errno.epipe :: rest, rfl, by simp, ?_⟩
          cases z
          · rw [serverLoopA3_false_err Errno.epipe (by decide) (by decide)]
            simp [sendOkSum, sendOkCount]
          · rw [serverLoopA3_true_err_break Errno.epipe (by decide) (by decide)
              (by decide) (by decide)]
            simp [sendOkSum, sendOkCount]
        | econnreset =>
          refine ⟨[], CallResult.err Errno.econnreset :: rest, rfl, by simp, ?_⟩
          cases z
          · rw [serverLoopA3_false_err Errno.econnreset (by decide) (by decide)]
            simp [sendOkSum, sendOkCount]
          · rw [serverLoopA3_true_err_break Errno.econnreset (by decide) (by decide)
              (by decide) (by decide)]
            simp [sendOkSum, sendOkCount]
        | other =>
          refine ⟨[], CallResult.err Errno.other :: rest, rfl, by simp, ?_⟩
          cases z
          · rw [serverLoopA3_false_err Errno.other (by decide) (by decide)]
            simp [sendOkSum, sendOkCount]
          · rw [serverLoopA3_true_err_break Errno.other (by decide) (by decide)
              (by decide) (by decide)]
            simp [sendOkSum, sendOkCount]
        | eagain =>
          obtain ⟨p, s, hps, hall, heq⟩ := ih z rest m hr
          refine ⟨CallResult.err Errno.eagain :: p, s, by simp [hps], ?_, ?_⟩
          · intro x hx
            rcases List.mem_cons.mp hx with hx | hx
            · exact Or.inr (Or.inl hx)
            · exact hall x hx
          · have hstep : (serverLoopA3 z (CallResult.err Errno.eagain :: rest) m).1
                = (serverLoopA3 z rest m).1 := by
              cases z
              · rw [serverLoopA3_false_err_continue Errno.eagain (Or.inl rfl)]
              · rw [serverLoopA3_true_err_continue Errno.eagain (Or.inl rfl)]
            rw [hstep, heq]
            simp [sendOkSum, sendOkCount]
        | ewouldblock =>
          obtain ⟨p, s, hps, hall, heq⟩ := ih z rest m hr
          refine ⟨CallResult.err Errno.ewouldblock :: p, s, by simp [hps], ?_, ?_⟩
          · intro x hx
            rcases List.mem_cons.mp hx with hx | hx
            · exact Or.inr (Or.inr (Or.inl hx))
            · exact hall x hx
          · have hstep : (serverLoopA3 z (CallResult.err Errno.ewouldblock :: rest) m).1
                = (serverLoopA3 z rest m).1 := by
              cases z
              · rw [serverLoopA3_false_err_continue Errno.ewouldblock (Or.inr rfl)]
              · rw [serverLoopA3_true_err_continue Errno.ewouldblock (Or.inr rfl)]
            rw [hstep, heq]
            simp [sendOkSum, sendOkCount]
        | enobufs =>
          cases z with
          | false =>
            refine ⟨[], CallResult.err Errno.enobufs :: rest, rfl, by simp, ?_⟩
            rw [serverLoopA3_false_err Errno.enobufs (by decide) (by decide)]
            simp [sendOkSum, sendOkCount]
          | true =>
            cases rest with
            | nil =>
              refine ⟨[], [CallResult.err Errno.enobufs], rfl, by simp, ?_⟩
              show m = _
              simp [sendOkSum, sendOkCount]
            | cons r2 rest2 =>
              have hr2 : rest2.length ≤ k := by
                simp only [List.length_cons] at h
                omega
              cases r2 with
              | ok n =>
                obtain ⟨p, s, hps, hall, heq⟩ :=
                  ih true rest2 ⟨m.bytes_sent + n, m.messages_sent + 1, m.elapsed_time⟩ hr2
                refine ⟨CallResult.err Errno.enobufs :: CallResult.ok n :: p, s,
                  by simp [hps], ?_, ?_⟩
                · intro x hx
                  rcases List.mem_cons.mp hx with hx | hx
                  · exact Or.inr (Or.inr (Or.inr ⟨rfl, Or.inl hx⟩))
                  · rcases List.mem_cons.mp hx with hx | hx
                    · exact Or.inl ⟨n, hx⟩
                    · exact hall x hx
                · have hstep :
                      (serverLoopA3 true
                        (CallResult.err Errno.enobufs :: CallResult.ok n :: rest2) m).1
                      = (serverLoopA3 true rest2
                          ⟨m.bytes_sent + n, m.messages_sent + 1, m.elapsed_time⟩).1 := rfl
                  rw [hstep, heq]
                  simp only [sendOkSum, sendOkCount, ServerMetrics.mk.injEq]
                  exact ⟨by omega, by omega, by trivial⟩
              | err e2 =>
                cases e2 with
                | eagain =>
                  obtain ⟨p, s, hps, hall, heq⟩ := ih true rest2 m hr2
                  refine ⟨CallResult.err Errno.enobufs :: CallResult.err Errno.eagain :: p, s,
                    by simp [hps], ?_, ?_⟩
                  · intro x hx
                    rcases List.mem_cons.mp hx with hx | hx
                    · exact Or.inr (Or.inr (Or.inr ⟨rfl, Or.inl hx⟩))
                    · rcases List.mem_cons.mp hx with hx | hx
                      · exact Or.inr (Or.inl hx)
                      · exact hall x hx
                  · have hstep :
                        (serverLoopA3 true
                          (CallResult.err Errno.enobufs :: CallResult.err Errno.eagain :: rest2)
                          m).1
                        = (serverLoopA3 true rest2 m).1 := rfl
                    rw [hstep, heq]
                    simp [sendOkSum, sendOkCount]
                | ewouldblock =>
                  obtain ⟨p, s, hps, hall, heq⟩ := ih true rest2 m hr2
                  refine ⟨CallResult.err Errno.enobufs ::
                    CallResult.err Errno.ewouldblock :: p, s, by simp [hps], ?_, ?_⟩
                  · intro x hx
                    rcases List.mem_cons.mp hx with hx | hx
                    · exact Or.inr (Or.inr (Or.inr ⟨rfl, Or.inl hx⟩))
                    · rcases List.mem_cons.mp hx with hx | hx
                      · exact Or.inr (Or.inr (Or.inl hx))
                      · exact hall x hx
                  · have hstep :
                        (serverLoopA3 true
                          (CallResult.err Errno.enobufs ::
                            CallResult.err Errno.ewouldblock :: rest2) m).1
                        = (serverLoopA3 true rest2 m).1 := rfl
                    rw [hstep, heq]
                    simp [sendOkSum, sendOkCount]
                | eintr =>
                  refine ⟨[], _, rfl, by simp, ?_⟩
                  show m = _
                  simp [sendOkSum, sendOkCount]
                | epipe =>
                  refine ⟨[], _, rfl, by simp, ?_⟩
                  show m = _
                  simp [sendOkSum, sendOkCount]
                | econnreset =>
                  refine ⟨[], _, rfl, by simp, ?_⟩
                  show m = _
                  simp [sendOkSum, sendOkCount]
                | enobufs =>
                  refine ⟨[], _, rfl, by simp, ?_⟩
                  show m = _
                  simp [sendOkSum, sendOkCount]
                | einval =>
                  refine ⟨[], _, rfl, by simp, ?_⟩
                  show m = _
                  simp [sendOkSum, sendOkCount]
                | other =>
                  refine ⟨[], _, rfl, by simp, ?_⟩
                  show m = _
                  simp [sendOkSum, sendOkCount]
        | einval =>
          cases z with
          | false =>
            refine ⟨[], CallResult.err Errno.einval :: rest, rfl, by simp, ?_⟩
            rw [serverLoopA3_false_err Errno.einval (by decide) (by decide)]
            simp [sendOkSum, sendOkCount]
          | true =>
            cases rest with
            | nil =>
              refine ⟨[], [CallResult.err Errno.einval], rfl, by simp, ?_⟩
              show m = _
              simp [sendOkSum, sendOkCount]
            | cons r2 rest2 =>
              have hr2 : rest2.length ≤ k := by
                simp only [List.length_cons] at h
                omega
              cases r2 with
              | ok n =>
                obtain ⟨p, s, hps, hall, heq⟩ :=
                  ih true rest2 ⟨m.bytes_sent + n, m.messages_sent + 1, m.elapsed_time⟩ hr2
                refine ⟨CallResult.err Errno.einval :: CallResult.ok n :: p, s,
                  by simp [hps], ?_, ?_⟩
                · intro x hx
                  rcases List.mem_cons.mp hx with hx | hx
                  · exact Or.inr (Or.inr (Or.inr ⟨rfl, Or.inr hx⟩))
                  · rcases List.mem_cons.mp hx with hx | hx
                    · exact Or.inl ⟨n, hx⟩
                    · exact hall x hx
                · have hstep :
                      (serverLoopA3 true
                        (CallResult.err Errno.einval :: CallResult.ok n :: rest2) m).1
                      = (serverLoopA3 true rest2
                          ⟨m.bytes_sent + n, m.messages_sent + 1, m.elapsed_time⟩).1 := rfl
                  rw [hstep, heq]
                  simp only [sendOkSum, sendOkCount, ServerMetrics.mk.injEq]
                  exact ⟨by omega, by omega, by trivial⟩
              | err e2 =>
                cases e2 with
                | eagain =>
                  obtain ⟨p, s, hps, hall, heq⟩ := ih true rest2 m hr2
                  refine ⟨CallResult.err Errno.einval :: CallResult.err Errno.eagain :: p, s,
                    by simp [hps], ?_, ?_⟩
                  · intro x hx
                    rcases List.mem_cons.mp hx with hx | hx
                    · exact Or.inr (Or.inr (Or.inr ⟨rfl, Or.inr hx⟩))
                    · rcases List.mem_cons.mp hx with hx | hx
                      · exact Or.inr (Or.inl hx)
                      · exact hall x hx
                  · have hstep :
                        (serverLoopA3 true
                          (CallResult.err Errno.einval :: CallResult.err Errno.eagain :: rest2)
                          m).1
                        = (serverLoopA3 true rest2 m).1 := rfl
                    rw [hstep, heq]
                    simp [sendOkSum, sendOkCount]
                | ewouldblock =>
                  obtain ⟨p, s, hps, hall, heq⟩ := ih true rest2 m hr2
                  refine ⟨CallResult.err Errno.einval ::
                    CallResult.err Errno.ewouldblock :: p, s, by simp [hps], ?_, ?_⟩
                  · intro x hx
                    rcases List.mem_cons.mp hx with hx | hx
                    · exact Or.inr (Or.inr (Or.inr ⟨rfl, Or.inr hx⟩))
                    · rcases List.mem_cons.mp hx with hx | hx
                      · exact Or.inr (Or.inr (Or.inl hx))
                      · exact hall x hx
                  · have hstep :
                        (serverLoopA3 true
                          (CallResult.err Errno.einval ::
                            CallResult.err Errno.ewouldblock :: rest2) m).1
                        = (serverLoopA3 true rest2 m).1 := rfl
                    rw [hstep, heq]
                    simp [sendOkSum, sendOkCount]
                | eintr =>
                  refine ⟨[], _, rfl, by simp, ?_⟩
                  show m = _
                  simp [sendOkSum, sendOkCount]
                | epipe =>
                  refine ⟨[], _, rfl, by simp, ?_⟩
                  show m = _
                  simp [sendOkSum, sendOkCount]
                | econnreset =>
                  refine ⟨[], _, rfl, by simp, ?_⟩
                  show m = _
                  simp [sendOkSum, sendOkCount]
                | enobufs =>
                  refine ⟨[], _, rfl, by simp, ?_⟩
                  show m = _
                  simp [sendOkSum, sendOkCount]
                | einval =>
                  refine ⟨[], _, rfl, by simp, ?_⟩
                  show m = _
                  simp [sendOkSum, sendOkCount]
                | other =>
                  refine ⟨[], _, rfl, by simp, ?_⟩
                  show m = _
                  simp [sendOkSum, sendOkCount]

/-- C6: with offload enabled, every iteration of the zero-copy send loop
first issues the vectorized send with the offload flag; exactly when
that call fails with ENOBUFS or EINVAL, the same iteration immediately
retries once without the flag (consuming the next transport result), and
subsequent iterations request the offload flag again; other first-call
errors trigger no fallback. -/
theorem claim_C6 :
    (∀ (oracle : List CallResult) (m : ServerMetrics),
        ZcTrace (serverLoopA3 true oracle m).2)
  ∧ (∀ (n : Nat) (rest : List CallResult) (m : ServerMetrics),
        serverLoopA3 true (CallResult.err Errno.enobufs :: CallResult.ok n :: rest) m
          = ((serverLoopA3 true rest
                ⟨m.bytes_sent + n, m.messages_sent + 1, m.elapsed_time⟩).1,
             true :: false :: (serverLoopA3 true rest
                ⟨m.bytes_sent + n, m.messages_sent + 1, m.elapsed_time⟩).2))
  ∧ (∀ (n : Nat) (rest : List CallResult) (m : ServerMetrics),
        serverLoopA3 true (CallResult.err Errno.einval :: CallResult.ok n :: rest) m
          = ((serverLoopA3 true rest
                ⟨m.bytes_sent + n, m.messages_sent + 1, m.elapsed_time⟩).1,
             true :: false :: (serverLoopA3 true rest
                ⟨m.bytes_sent + n, m.messages_sent + 1, m.elapsed_time⟩).2))
  ∧ (∀ (rest : List CallResult) (m : ServerMetrics),
        serverLoopA3 true (CallResult.err Errno.epipe :: rest) m = (m, [true]))
  ∧ (∀ (n : Nat) (rest : List CallResult) (m : ServerMetrics),
        (serverLoopA3 true (CallResult.ok n :: rest) m).2
          = true :: (serverLoopA3 true rest
              ⟨m.bytes_sent + n, m.messages_sent + 1, m.elapsed_time⟩).2) :=
  ⟨fun oracle m => zcTrace_aux oracle.length oracle m le_rfl,
   fun _ _ _ => rfl, fun _ _ _ => rfl,
   fun rest m => serverLoopA3_true_err_break Errno.epipe (by decide) (by decide)
     (by decide) (by decide) rest m,
   fun _ _ _ => rfl⟩

/-- Witness for C6 at a concrete run: a peer-disconnect error on the
offloaded call ends the loop after that one offloaded call. -/
theorem claim_C6_witness :
    serverLoopA3 true (CallResult.err Errno.epipe :: []) ⟨0, 0, 0⟩ = (⟨0, 0, 0⟩, [true]) :=
  claim_C6.2.2.2.1 [] ⟨0, 0, 0⟩

/-- C10 as amended, covering every worker loop of every strategy: in
the three client receive loops and the three server send loops the byte
counter is the exact sum of the non-negative return values of the calls
the loop accumulated, and the client message counters count exactly the
calls that returned a positive value — a call moving only part of a
Transfer Unit still counts exactly one; the server message counters
(two-copy, scatter-gather, and zero-copy in either offload mode),
however, count every successful send call including a zero-byte return
(possible only when the Transfer Unit size is 0, i.e. configured size
below 8), so they count calls, not positive returns — see the
counterexample. -/
theorem claim_C10 :
    (∀ (results : List (CallResult × ℚ)) (m : ClientMetrics),
        ∃ p s, results = p ++ s ∧
          (∀ e ∈ p, e.1 = CallResult.err Errno.eintr ∨ ∃ n, e.1 = CallResult.ok (n + 1)) ∧
          clientLoopA1 results m =
            ⟨m.bytes_received + recvPosSum p, m.messages_received + recvPosCount p,
              m.total_latency + recvLatSum p⟩)
  ∧ (∀ (results : List (CallResult × ℚ)) (m : ClientMetrics),
        ∃ p s, results = p ++ s ∧
          (∀ e ∈ p, e.1 = CallResult.err Errno.eintr ∨ ∃ n, e.1 = CallResult.ok (n + 1)) ∧
          clientLoopA2 results m =
            ⟨m.bytes_received + recvPosSum p, m.messages_received + recvPosCount p,
              m.total_latency + recvLatSum p⟩)
  ∧ (∀ (results : List (CallResult × ℚ)) (m : ClientMetrics),
        ∃ p s, results = p ++ s ∧
          (∀ e ∈ p, e.1 = CallResult.err Errno.eintr ∨ ∃ n, e.1 = CallResult.ok (n + 1)) ∧
          clientLoopA3 results m =
            ⟨m.bytes_received + recvPosSum p, m.messages_received + recvPosCount p,
              m.total_latency + recvLatSum p⟩)
  ∧ (∀ (oracle : List CallResult) (m : ServerMetrics),
        ∃ p s, oracle = p ++ s ∧
          (∀ r ∈ p, ∃ n, r = CallResult.ok n) ∧
          (serverLoopA1 oracle m).1 =
            ⟨m.bytes_sent + sendOkSum p, m.messages_sent + p.length, m.elapsed_time⟩)
  ∧ (∀ (oracle : List CallResult) (m : ServerMetrics),
        ∃ p s, oracle = p ++ s ∧
          (∀ r ∈ p, ∃ n, r = CallResult.ok n) ∧
          (serverLoopA2 oracle m).1 =
            ⟨m.bytes_sent + sendOkSum p, m.messages_sent + p.length, m.elapsed_time⟩)
  ∧ (∀ (z : Bool) (oracle : List CallResult) (m : ServerMetrics),
        ∃ p s, oracle = p ++ s ∧
          (∀ r ∈ p, (∃ n, r = CallResult.ok n) ∨
            r = CallResult.err Errno.eagain ∨ r = CallResult.err Errno.ewouldblock ∨
            (z = true ∧
              (r = CallResult.err Errno.enobufs ∨ r = CallResult.err Errno.einval))) ∧
          (serverLoopA3 z oracle m).1 =
            ⟨m.bytes_sent + sendOkSum p, m.messages_sent + sendOkCount p, m.elapsed_time⟩)
  ∧ clientLoopA1 [(CallResult.ok 1, 0)] ⟨0, 0, 0⟩ = ⟨1, 1, 0⟩ := by
  refine ⟨clientLoopA1_split, ?_, ?_, serverLoopA1_split, serverLoopA2_split,
    fun z oracle m => serverLoopA3_split oracle.length z oracle m le_rfl,
    by simp [clientLoopA1]⟩
  · intro results m
    rw [clientLoopA2_eq]
    exact clientLoopA1_split results m
  · intro results m
    rw [clientLoopA3_eq]
    exact clientLoopA1_split results m

/-- Witness for C10 at a concrete run: a receive call moving a single
byte (part of a Transfer Unit) still counts exactly one message. -/
theorem claim_C10_witness :
    clientLoopA1 [(CallResult.ok 1, 0)] ⟨0, 0, 0⟩ = ⟨1, 1, 0⟩ :=
  claim_C10.2.2.2.2.2.2

/-- Counterexample to C10 as stated: a send call returning 0 bytes (the
Transfer Unit size when the configured message size is below 8)
increments the server message counter although no call returned a
positive value. -/
theorem claim_C10_counterexample :
    (serverLoopA1 [CallResult.ok 0] ⟨0, 0, 0⟩).1.messages_sent = 1 ∧
    sendPosCount [CallResult.ok 0] = 0 := by
  decide

end MT25033
